import Mathlib

/-!
Shallow embedding of the `Appboy/worker-pools` Go package.

The pool side (`BaseWorkerPool` and its methods) is translated from the
package's worker pool file; the manager side (`WorkerPoolManager`,
`GetPool`, `GetPoolWithFactory`) from `worker_pool_manager.go`.

Modelling conventions:

* Go `int` is modelled as `Int` (no operation here can overflow int64 on
  the values the invariants allow, so no explicit wrap-around is needed).
* Channels: the buffered work channel `sends` is a list plus its capacity
  `queueCap`; the one-shot `disposed` channel is a `Bool` ("has been
  closed").  Closing an already-closed channel panics in Go, which
  `chanClose` models by returning `none`; `make(chan Work, n)` with a
  negative `n` panics, which `chanMake` models by returning `none`.
* The `sync.RWMutex` `deletionLock` is modelled by its observable state in
  a sequential execution: `readLocks` counts the shared-mode holders.
  Operations that would block (write-locking while readers exist, sending
  on a full channel, read-unlocking an unlocked mutex - the last is a Go
  panic) return `none`.
* Wall-clock time is an explicit `Int` parameter `now` (the manager state
  carries it); `time.Now()` at construction time becomes the `now` passed
  to the factory, `time.Since(t)` becomes `now - t`.
* Pools live in a heap `pools : List BaseWorkerPool`; a pool "instance"
  (Go pointer) is its index, so pointer identity is index equality.
* The TTL cache is external to the repository; per its interface it is an
  association list with `Get`/`Set`/`Remove`.  Its background idle expiry
  is environment action and is not triggered by the operations here.
* `go pool.Dispose()` scheduled by the manager is recorded in
  `pendingDispose` (it cannot run while the reservation is held).
* The recursive retry in `GetPoolWithFactory` is given explicit fuel;
  `none` means no normal return (panic or out of fuel).
-/

namespace WorkerPools

/-- `BaseWorkerPool` (worker pool file).  `sends` is the buffered work
channel (queue content as opaque work ids, capacity `queueCap`),
`readLocks` the number of shared-mode holders of `deletionLock`,
`disposed` whether the `disposed` channel has been closed. -/
structure BaseWorkerPool where
  workerCount : Int
  maxSize : Int
  queueCap : Int
  sends : List Nat
  readLocks : Nat
  disposed : Bool
  creationTime : Int
  deriving DecidableEq

/-- Models Go `make(chan Work, capacity)`: panics (`none`) when the
capacity is negative. -/
def chanMake (capacity : Int) : Option Int :=
  if capacity < 0 then none else some capacity

/-- Models Go `close(ch)` on the one-shot `disposed` channel: closing an
already-closed channel panics (`none`). -/
def chanClose (alreadyClosed : Bool) : Option Bool :=
  if alreadyClosed then none else some true

/-- `NewWorkerPool` - the default pool factory.  The Go signature
`(WorkerPool, error)` is modelled as `Except String BaseWorkerPool`
(`.ok` = non-nil pool and nil error, `.error` = nil pool and non-nil
error); the outer `Option` is `none` when construction panics.  `t`
models `time.Now()`. -/
def NewWorkerPool (maxSize : Int) (t : Int) : Option (Except String BaseWorkerPool) :=
  (chanMake maxSize).map fun c =>
    Except.ok
      { workerCount := 0
        maxSize := maxSize
        queueCap := c
        sends := []
        readLocks := 0
        disposed := false
        creationTime := t }

/-- Go `func min(x int, y int) int` from the worker pool file. -/
def minInt (x : Int) (y : Int) : Int :=
  if x < y then x else y

/-- `Submit`: send on the buffered `sends` channel.  With no concurrently
running worker modelled, a send on a full buffer blocks (`none`). -/
def BaseWorkerPool.Submit (p : BaseWorkerPool) (w : Nat) : Option BaseWorkerPool :=
  if (p.sends.length : Int) < p.queueCap then
    some { p with sends := p.sends ++ [w] }
  else
    none

/-- `spawnWorkers`: spawn `min(sendSize, maxSize - workerCount)` new
workers (the worker goroutines themselves only drain `sends`; their
effect on the counters is nil). -/
def BaseWorkerPool.spawnWorkers (p : BaseWorkerPool) (sendSize : Int) : BaseWorkerPool :=
  let newWorkers := minInt sendSize (p.maxSize - p.workerCount)
  if 0 < newWorkers then
    { p with workerCount := p.workerCount + newWorkers }
  else
    p

/-- `reserve`: `RLock`, then if the `disposed` channel is closed,
`RUnlock` and report `false`; otherwise keep the read lock and report
`true`. -/
def BaseWorkerPool.reserve (p : BaseWorkerPool) : BaseWorkerPool × Bool :=
  let locked := { p with readLocks := p.readLocks + 1 }
  if locked.disposed then
    ({ locked with readLocks := locked.readLocks - 1 }, false)
  else
    (locked, true)

/-- `release`: `RUnlock`.  Unlocking an unlocked `RWMutex` is a Go
runtime panic (`none`). -/
def BaseWorkerPool.release (p : BaseWorkerPool) : Option BaseWorkerPool :=
  if p.readLocks = 0 then
    none
  else
    some { p with readLocks := p.readLocks - 1 }

/-- `age`: `time.Since(p.creationTime)`. -/
def BaseWorkerPool.age (p : BaseWorkerPool) (now : Int) : Int :=
  now - p.creationTime

/-- `Dispose`: take the write lock (blocks - `none` - while shared
holders exist), then close the `disposed` channel unless it is already
closed. -/
def BaseWorkerPool.Dispose (p : BaseWorkerPool) : Option BaseWorkerPool :=
  if p.readLocks ≠ 0 then
    none
  else if p.disposed then
    some p
  else
    (chanClose p.disposed).map fun _ => { p with disposed := true }

/-- Iterated `Dispose` (N sequential calls). -/
def disposeN : Nat → BaseWorkerPool → Option BaseWorkerPool
  | 0, p => some p
  | n + 1, p => p.Dispose.bind (disposeN n)

/-- `type Factory func(maxSize int) (WorkerPool, error)`.  The second
`Int` argument models the `time.Now()` the factory body observes; the
outer `Option` is `none` when the factory panics. -/
abbrev Factory := Int → Int → Option (Except String BaseWorkerPool)

/-- `WorkerPoolManager` configuration (`worker_pool_manager.go`).  The
cache itself and the reservation mutex live in `ManagerState` /
the sequential execution model. -/
structure WorkerPoolManager where
  workerPoolMaxSize : Int
  stalePoolExpiration : Int
  maxPoolLifetime : Int
  deriving DecidableEq

/-- `NewWorkerPoolManager`. -/
def NewWorkerPoolManager (poolSize : Int) (stale : Int) (maxLife : Int) :
    WorkerPoolManager :=
  { workerPoolMaxSize := poolSize
    stalePoolExpiration := stale
    maxPoolLifetime := maxLife }

/-- TTL-cache `Remove`/`Delete` (external collaborator, modelled at its
interface): drop the key's entry. -/
def cacheRemove (c : List (String × Nat)) (k : String) : List (String × Nat) :=
  c.filter fun e => !(e.1 == k)

/-- TTL-cache `Get`: first entry for the key, if any. -/
def cacheGet (c : List (String × Nat)) (k : String) : Option Nat :=
  match c.find? (fun e => e.1 == k) with
  | some e => some e.2
  | none => none

/-- TTL-cache `Set`/`SetWithTTL`: bind the key to the value (the TTL
only matters to the cache's background idle expiry, which is
environment action). -/
def cacheSet (c : List (String × Nat)) (k : String) (v : Nat) : List (String × Nat) :=
  (k, v) :: cacheRemove c k

/-- Mutable state a `WorkerPoolManager` operates on: the heap of pool
instances (a pool pointer is an index into `pools`), the cache, the
disposals scheduled with `go pool.Dispose()` and the current wall-clock
time. -/
structure ManagerState where
  pools : List BaseWorkerPool
  cache : List (String × Nat)
  pendingDispose : List Nat
  now : Int
  deriving DecidableEq

/-- Write back the pool object at index `pid` (a method call mutates the
pointed-to pool in place). -/
def setPool (st : ManagerState) (pid : Nat) (p : BaseWorkerPool) : ManagerState :=
  { st with pools := st.pools.set pid p }

/-- What the Go triple `(WorkerPool, chan<- bool, error)` returned by
`GetPoolWithFactory` looks like: `pool` is the pool pointer or nil,
`doneUsing` the release signal (signalling it releases the pool it
carries) or nil, `err` the error or nil. -/
structure GetReturn where
  pool : Option Nat
  doneUsing : Option Nat
  err : Option String
  deriving DecidableEq

/-- Outcome of the lookup-or-create prefix of `GetPoolWithFactory`
(lines 64-74 of `worker_pool_manager.go`). -/
inductive ResolveOutcome where
  | panicked : ResolveOutcome
  | fail : String → ManagerState → ResolveOutcome
  | found : Nat → ManagerState → ResolveOutcome
  deriving DecidableEq

/-- Cache lookup, else build through the factory and cache the new pool.
On factory error the state is returned untouched together with the
error. -/
def resolvePool (m : WorkerPoolManager) (key : String) (factory : Factory)
    (st : ManagerState) : ResolveOutcome :=
  match cacheGet st.cache key with
  | some pid => ResolveOutcome.found pid st
  | none =>
    match factory m.workerPoolMaxSize st.now with
    | none => ResolveOutcome.panicked
    | some (Except.error e) => ResolveOutcome.fail e st
    | some (Except.ok p) =>
      ResolveOutcome.found st.pools.length
        { st with
            pools := st.pools ++ [p]
            cache := cacheSet st.cache key st.pools.length }

/-- Lines 85-101 of `worker_pool_manager.go`, run on the reserved pool:
spawn workers, then if the pool's age exceeds `maxPoolLifetime` remove
its key from the cache and schedule `go pool.Dispose()`; build the
`doneUsing` channel and return. -/
def finishGet (m : WorkerPoolManager) (key : String) (sendSize : Int)
    (pid : Nat) (p : BaseWorkerPool) (st1 : ManagerState) :
    GetReturn × ManagerState :=
  let p2 := p.spawnWorkers sendSize
  let st2 := setPool st1 pid p2
  if m.maxPoolLifetime < p2.age st2.now then
    ({ pool := some pid, doneUsing := some pid, err := none },
     { st2 with
         cache := cacheRemove st2.cache key
         pendingDispose := st2.pendingDispose ++ [pid] })
  else
    ({ pool := some pid, doneUsing := some pid, err := none }, st2)

/-- `GetPoolWithFactory`.  The manager-wide `poolReservationLock` makes
the whole body atomic, so one invocation is one state transformation;
the tail recursion after a failed `reserve` carries explicit fuel
(`none` = no normal return: panic or fuel exhausted). -/
def GetPoolWithFactory (m : WorkerPoolManager) (key : String) (sendSize : Int)
    (factory : Factory) : Nat → ManagerState → Option (GetReturn × ManagerState)
  | 0, _ => none
  | fuel + 1, st =>
    match resolvePool m key factory st with
    | ResolveOutcome.panicked => none
    | ResolveOutcome.fail e st1 =>
      some ({ pool := none, doneUsing := none, err := some e }, st1)
    | ResolveOutcome.found pid st1 =>
      match st1.pools.get? pid with
      | none => none
      | some p =>
        let r := p.reserve
        if r.2 then
          some (finishGet m key sendSize pid r.1 st1)
        else
          GetPoolWithFactory m key sendSize factory fuel (setPool st1 pid r.1)

/-- `GetPool`: delegate to `GetPoolWithFactory` with the default factory
`NewWorkerPool` and discard the error. -/
def GetPool (m : WorkerPoolManager) (key : String) (sendSize : Int)
    (fuel : Nat) (st : ManagerState) :
    Option ((Option Nat × Option Nat) × ManagerState) :=
  (GetPoolWithFactory m key sendSize NewWorkerPool fuel st).map
    fun r => ((r.1.pool, r.1.doneUsing), r.2)

/-! Sample values used to exercise the theorems on concrete inputs. -/

/-- A freshly constructed pool with `maxSize = 2` (what
`NewWorkerPool 2 0` builds). -/
def livePool : BaseWorkerPool :=
  { workerCount := 0
    maxSize := 2
    queueCap := 2
    sends := []
    readLocks := 0
    disposed := false
    creationTime := 0 }

/-- A pool whose dispose signal has fired. -/
def deadPool : BaseWorkerPool :=
  { livePool with disposed := true }

/-- A pool created 200 time units in the past. -/
def oldPool : BaseWorkerPool :=
  { livePool with creationTime := -200 }

/-- A sample manager: pool size 2, stale expiration 10, max lifetime 100. -/
def mgr : WorkerPoolManager :=
  NewWorkerPoolManager 2 10 100

/-- `livePool` after one reservation and one spawned worker. -/
def spawnedPool : BaseWorkerPool :=
  { livePool with workerCount := 1, readLocks := 1 }

/-- `oldPool` after one reservation and one spawned worker. -/
def spawnedOldPool : BaseWorkerPool :=
  { oldPool with workerCount := 1, readLocks := 1 }

/-- A factory that always reports the error "X". -/
def errFactory : Factory :=
  fun _ _ => some (Except.error "X")

/-- The pool record `NewWorkerPool sz t` builds (when `sz ≥ 0`). -/
def freshPool (sz : Int) (t : Int) : BaseWorkerPool :=
  { workerCount := 0
    maxSize := sz
    queueCap := sz
    sends := []
    readLocks := 0
    disposed := false
    creationTime := t }

/-! ### Basic facts about the pool operations -/

lemma spawnWorkers_maxSize (p : BaseWorkerPool) (n : Int) :
    (p.spawnWorkers n).maxSize = p.maxSize := by
  simp only [BaseWorkerPool.spawnWorkers]
  split <;> rfl

lemma spawnWorkers_workerCount (p : BaseWorkerPool) (n : Int) :
    (p.spawnWorkers n).workerCount =
      if 0 < minInt n (p.maxSize - p.workerCount) then
        p.workerCount + minInt n (p.maxSize - p.workerCount)
      else
        p.workerCount := by
  simp only [BaseWorkerPool.spawnWorkers]
  split <;> rfl

lemma spawnWorkers_disposed (p : BaseWorkerPool) (n : Int) :
    (p.spawnWorkers n).disposed = p.disposed := by
  simp only [BaseWorkerPool.spawnWorkers]
  split <;> rfl

lemma spawnWorkers_readLocks (p : BaseWorkerPool) (n : Int) :
    (p.spawnWorkers n).readLocks = p.readLocks := by
  simp only [BaseWorkerPool.spawnWorkers]
  split <;> rfl

lemma spawnWorkers_creationTime (p : BaseWorkerPool) (n : Int) :
    (p.spawnWorkers n).creationTime = p.creationTime := by
  simp only [BaseWorkerPool.spawnWorkers]
  split <;> rfl

lemma spawnWorkers_zero (p : BaseWorkerPool) : p.spawnWorkers 0 = p := by
  simp only [BaseWorkerPool.spawnWorkers, minInt]
  split_ifs <;> first | rfl | omega

lemma reserve_disposed (p : BaseWorkerPool) (h : p.disposed = true) :
    p.reserve = (p, false) := by
  cases p with
  | mk wc ms qc s rl d ct =>
    obtain rfl : d = true := h
    simp [BaseWorkerPool.reserve]

lemma reserve_live (p : BaseWorkerPool) (h : p.disposed = false) :
    p.reserve = ({ p with readLocks := p.readLocks + 1 }, true) := by
  simp [BaseWorkerPool.reserve, h]

lemma release_after_reserve (p : BaseWorkerPool) (h : p.disposed = false) :
    p.reserve.1.release = some p := by
  simp [reserve_live p h, BaseWorkerPool.release]

lemma submit_some (p : BaseWorkerPool) (w : Nat) (q : BaseWorkerPool)
    (h : p.Submit w = some q) :
    q = { p with sends := p.sends ++ [w] } := by
  unfold BaseWorkerPool.Submit at h
  split at h
  · exact (Option.some.injEq _ _ ▸ h).symm
  · simp at h

lemma release_some (p : BaseWorkerPool) (q : BaseWorkerPool)
    (h : p.release = some q) :
    q = { p with readLocks := p.readLocks - 1 } := by
  unfold BaseWorkerPool.release at h
  split at h
  · simp at h
  · exact (Option.some.injEq _ _ ▸ h).symm

lemma dispose_of_disposed (p : BaseWorkerPool) (hl : p.readLocks = 0)
    (hd : p.disposed = true) : p.Dispose = some p := by
  simp [BaseWorkerPool.Dispose, hl, hd]

lemma dispose_of_live (p : BaseWorkerPool) (hl : p.readLocks = 0)
    (hd : p.disposed = false) :
    p.Dispose = some { p with disposed := true } := by
  simp [BaseWorkerPool.Dispose, chanClose, hl, hd]

lemma dispose_some (p : BaseWorkerPool) (q : BaseWorkerPool)
    (h : p.Dispose = some q) :
    p.readLocks = 0 ∧ q = { p with disposed := true } := by
  unfold BaseWorkerPool.Dispose at h
  split at h
  · simp at h
  · next hl =>
    have hl0 : p.readLocks = 0 := by omega
    split at h
    · next hd =>
      refine ⟨hl0, ?_⟩
      cases p
      simp_all
    · next hd =>
      simp only [Bool.not_eq_true] at hd
      simp [chanClose, hd] at h
      exact ⟨hl0, h.symm⟩

lemma disposeN_fixed (q : BaseWorkerPool) (hl : q.readLocks = 0)
    (hd : q.disposed = true) : ∀ n : Nat, disposeN n q = some q := by
  intro n
  induction n with
  | zero => rfl
  | succ k ih => simp [disposeN, dispose_of_disposed q hl hd, ih]

/-! ### C1 auxiliary: accumulated spawn counts -/

lemma foldl_spawn_min (l : List Int) :
    ∀ (p : BaseWorkerPool) (s : Int), 0 ≤ s → 0 ≤ p.maxSize →
      (∀ n ∈ l, 0 ≤ n) → p.workerCount = minInt p.maxSize s →
      (l.foldl BaseWorkerPool.spawnWorkers p).workerCount
          = minInt p.maxSize (s + l.sum)
      ∧ (l.foldl BaseWorkerPool.spawnWorkers p).maxSize = p.maxSize := by
  induction l with
  | nil =>
    intro p s hs hm hl hc
    simp [hc]
  | cons n tl ih =>
    intro p s hs hm hl hc
    have hn : 0 ≤ n := hl n (List.mem_cons_self n tl)
    have htl : ∀ k ∈ tl, 0 ≤ k := fun k hk => hl k (List.mem_cons_of_mem n hk)
    have hms := spawnWorkers_maxSize p n
    have hstep : (p.spawnWorkers n).workerCount
        = minInt (p.spawnWorkers n).maxSize (s + n) := by
      rw [hms, spawnWorkers_workerCount, hc]
      unfold minInt
      split_ifs <;> omega
    have h2 := ih (p.spawnWorkers n) (s + n) (by omega)
      (by rw [hms]; exact hm) htl hstep
    rw [List.foldl_cons]
    refine ⟨?_, ?_⟩
    · rw [h2.1, hms, List.sum_cons, ← add_assoc]
    · rw [h2.2, hms]

/-- C1: for a pool built by `NewWorkerPool` with `maxSize = m ≥ 0` and any
sequence of `spawnWorkers` calls with non-negative requested sizes, the
final `workerCount` is `min(m, sum of the requests)`; after every prefix
of the sequence `workerCount` never exceeds `m`; and any single call on a
pool respecting the worker-count bound adds exactly
`min(n, maxSize - workerCount)` workers. -/
theorem spawnWorkers_sequence_count (mval t : Int) (p0 : BaseWorkerPool)
    (hm : 0 ≤ mval) (hnew : NewWorkerPool mval t = some (Except.ok p0))
    (l : List Int) (hl : ∀ n ∈ l, 0 ≤ n) :
    (l.foldl BaseWorkerPool.spawnWorkers p0).workerCount = minInt mval l.sum
    ∧ (∀ pre suf, l = pre ++ suf →
        (pre.foldl BaseWorkerPool.spawnWorkers p0).workerCount ≤ mval)
    ∧ (∀ (q : BaseWorkerPool) (n : Int), 0 ≤ n → 0 ≤ q.workerCount →
        q.workerCount ≤ q.maxSize →
        (q.spawnWorkers n).workerCount
          = q.workerCount + minInt n (q.maxSize - q.workerCount)) := by
  have hchan : chanMake mval = some mval := by
    unfold chanMake
    rw [if_neg (by omega)]
  unfold NewWorkerPool at hnew
  rw [hchan] at hnew
  simp only [Option.map_some', Option.some.injEq, Except.ok.injEq] at hnew
  have hp0c : p0.workerCount = 0 := by rw [← hnew]
  have hp0m : p0.maxSize = mval := by rw [← hnew]
  have hstart : p0.workerCount = minInt p0.maxSize 0 := by
    rw [hp0c, hp0m]
    unfold minInt
    split_ifs <;> omega
  refine ⟨?_, ?_, ?_⟩
  · have h := foldl_spawn_min l p0 0 le_rfl (by rw [hp0m]; exact hm) hl hstart
    rw [h.1, hp0m, zero_add]
  · intro pre suf heq
    have hlpre : ∀ n ∈ pre, 0 ≤ n := by
      intro n hn
      exact hl n (heq ▸ List.mem_append_left suf hn)
    have h := foldl_spawn_min pre p0 0 le_rfl (by rw [hp0m]; exact hm) hlpre hstart
    rw [h.1, hp0m]
    unfold minInt
    split_ifs <;> omega
  · intro q n hn h0 h1
    rw [spawnWorkers_workerCount]
    unfold minInt
    split_ifs <;> omega

theorem spawnWorkers_sequence_count_witness :
    (([1, 5] : List Int).foldl BaseWorkerPool.spawnWorkers livePool).workerCount
      = minInt 2 ([1, 5] : List Int).sum :=
  (spawnWorkers_sequence_count 2 0 livePool (by decide) rfl [1, 5] (by decide)).1

/-- C7: every pool operation preserves `0 ≤ workerCount ≤ maxSize`, and
none decreases `workerCount` (`age` reads the clock and leaves the pool
untouched). -/
theorem workerCount_invariant_preserved (p : BaseWorkerPool)
    (h0 : 0 ≤ p.workerCount) (h1 : p.workerCount ≤ p.maxSize) :
    (∀ w q, p.Submit w = some q →
        0 ≤ q.workerCount ∧ q.workerCount ≤ q.maxSize
        ∧ q.workerCount = p.workerCount)
    ∧ (∀ n : Int, 0 ≤ (p.spawnWorkers n).workerCount
        ∧ (p.spawnWorkers n).workerCount ≤ (p.spawnWorkers n).maxSize
        ∧ p.workerCount ≤ (p.spawnWorkers n).workerCount)
    ∧ (0 ≤ p.reserve.1.workerCount
        ∧ p.reserve.1.workerCount ≤ p.reserve.1.maxSize
        ∧ p.reserve.1.workerCount = p.workerCount)
    ∧ (∀ q, p.release = some q →
        0 ≤ q.workerCount ∧ q.workerCount ≤ q.maxSize
        ∧ q.workerCount = p.workerCount)
    ∧ (∀ now, p.age now = now - p.creationTime)
    ∧ (∀ q, p.Dispose = some q →
        0 ≤ q.workerCount ∧ q.workerCount ≤ q.maxSize
        ∧ q.workerCount = p.workerCount) := by
  refine ⟨?_, ?_, ?_, ?_, fun _ => rfl, ?_⟩
  · intro w q hq
    rw [submit_some p w q hq]
    exact ⟨h0, h1, rfl⟩
  · intro n
    refine ⟨?_, ?_, ?_⟩ <;>
      · simp only [spawnWorkers_workerCount, spawnWorkers_maxSize, minInt]
        split_ifs <;> omega
  · cases hd : p.disposed
    · rw [reserve_live p hd]
      exact ⟨h0, h1, rfl⟩
    · rw [reserve_disposed p hd]
      exact ⟨h0, h1, rfl⟩
  · intro q hq
    rw [release_some p q hq]
    exact ⟨h0, h1, rfl⟩
  · intro q hq
    rw [(dispose_some p q hq).2]
    exact ⟨h0, h1, rfl⟩

theorem workerCount_invariant_preserved_witness :
    0 ≤ (livePool.spawnWorkers 5).workerCount
    ∧ (livePool.spawnWorkers 5).workerCount ≤ (livePool.spawnWorkers 5).maxSize
    ∧ livePool.workerCount ≤ (livePool.spawnWorkers 5).workerCount :=
  (workerCount_invariant_preserved livePool (by decide) (by decide)).2.1 5

/-- C4: `Dispose` is idempotent - one call fires the dispose signal and
any further sequential calls return the same state without panicking -
and a fired dispose signal survives every later operation. -/
theorem dispose_idempotent (p : BaseWorkerPool) (hl : p.readLocks = 0) :
    (∃ q, p.Dispose = some q ∧ q.disposed = true
       ∧ ∀ n : Nat, disposeN (n + 1) p = p.Dispose)
    ∧ (p.disposed = true →
        (∀ n : Int, (p.spawnWorkers n).disposed = true)
        ∧ p.reserve.1.disposed = true
        ∧ (∀ w q, p.Submit w = some q → q.disposed = true)
        ∧ (∀ q, p.release = some q → q.disposed = true)
        ∧ (∀ q, p.Dispose = some q → q.disposed = true)) := by
  constructor
  · cases hd : p.disposed
    · refine ⟨{ p with disposed := true }, dispose_of_live p hl hd, rfl, ?_⟩
      intro n
      rw [disposeN, dispose_of_live p hl hd, Option.some_bind]
      exact disposeN_fixed { p with disposed := true } hl rfl n
    · refine ⟨p, dispose_of_disposed p hl hd, hd, ?_⟩
      intro n
      rw [disposeN, dispose_of_disposed p hl hd, Option.some_bind]
      exact disposeN_fixed p hl hd n
  · intro hd
    refine ⟨fun n => by rw [spawnWorkers_disposed, hd], ?_, ?_, ?_, ?_⟩
    · rw [reserve_disposed p hd, hd]
    · intro w q hq
      rw [submit_some p w q hq]
      exact hd
    · intro q hq
      rw [release_some p q hq]
      exact hd
    · intro q hq
      rw [(dispose_some p q hq).2]

theorem dispose_idempotent_witness :
    ∃ q, deadPool.Dispose = some q ∧ q.disposed = true
      ∧ ∀ n : Nat, disposeN (n + 1) deadPool = deadPool.Dispose :=
  (dispose_idempotent deadPool rfl).1

/-- C5: `reserve` returns `false` with the shared gate left exactly as it
was precisely when the dispose signal has already fired; otherwise it
returns `true`, holding one extra shared-mode claim that a matching
`release` gives back up. -/
theorem reserve_iff_not_disposed (p : BaseWorkerPool) :
    (p.reserve.2 = false ↔ p.disposed = true)
    ∧ (p.disposed = true → p.reserve.1 = p)
    ∧ (p.disposed = false →
        p.reserve.2 = true
        ∧ p.reserve.1.readLocks = p.readLocks + 1
        ∧ p.reserve.1.release = some p) := by
  cases hd : p.disposed
  · refine ⟨?_, ?_, ?_⟩
    · rw [reserve_live p hd]
      simp [hd]
    · intro h
      exact absurd h (by simp)
    · intro _
      refine ⟨?_, ?_, release_after_reserve p hd⟩
      · rw [reserve_live p hd]
      · rw [reserve_live p hd]
  · refine ⟨?_, ?_, ?_⟩
    · rw [reserve_disposed p hd]
      simp [hd]
    · intro _
      rw [reserve_disposed p hd]
    · intro h
      exact absurd h (by simp)

theorem reserve_iff_not_disposed_witness :
    deadPool.reserve.1 = deadPool
    ∧ livePool.reserve.2 = true
    ∧ livePool.reserve.1.release = some livePool :=
  ⟨(reserve_iff_not_disposed deadPool).2.1 rfl,
   ((reserve_iff_not_disposed livePool).2.2 rfl).1,
   ((reserve_iff_not_disposed livePool).2.2 rfl).2.2⟩

/-- C10: `NewWorkerPool` panics (the work channel is made with a negative
capacity) for every `maxSize < 0`, and for every `maxSize ≥ 0` returns a
pool whose queue capacity is exactly `maxSize` together with a nil
error. -/
theorem newWorkerPool_negative_panics (maxSize t : Int) :
    (maxSize < 0 → NewWorkerPool maxSize t = none)
    ∧ (0 ≤ maxSize → ∃ p, NewWorkerPool maxSize t = some (Except.ok p)
        ∧ p.queueCap = maxSize ∧ p.maxSize = maxSize
        ∧ p.workerCount = 0 ∧ p.disposed = false) := by
  constructor
  · intro h
    unfold NewWorkerPool chanMake
    rw [if_pos h]
    rfl
  · intro h
    refine ⟨{ workerCount := 0, maxSize := maxSize, queueCap := maxSize,
              sends := [], readLocks := 0, disposed := false,
              creationTime := t }, ?_, rfl, rfl, rfl, rfl⟩
    unfold NewWorkerPool chanMake
    rw [if_neg (by omega)]
    rfl

theorem newWorkerPool_negative_panics_witness :
    NewWorkerPool (-1) 0 = none
    ∧ ∃ p, NewWorkerPool 3 0 = some (Except.ok p)
        ∧ p.queueCap = 3 ∧ p.maxSize = 3 ∧ p.workerCount = 0
        ∧ p.disposed = false :=
  ⟨(newWorkerPool_negative_panics (-1) 0).1 (by decide),
   (newWorkerPool_negative_panics 3 0).2 (by decide)⟩

/-! ### List and cache lemmas -/

lemma get?_set_self {α : Type} (l : List α) :
    ∀ (i : Nat) (a : α), i < l.length → (l.set i a).get? i = some a := by
  induction l with
  | nil =>
    intro i a h
    simp at h
  | cons x xs ih =>
    intro i a h
    cases i with
    | zero => rfl
    | succ j =>
      simp only [List.set_cons_succ, List.get?_cons_succ]
      exact ih j a (by simpa using h)

lemma set_get_self {α : Type} (l : List α) :
    ∀ (i : Nat) (a : α), l.get? i = some a → l.set i a = l := by
  induction l with
  | nil =>
    intro i a h
    simp at h
  | cons x xs ih =>
    intro i a h
    cases i with
    | zero =>
      simp only [List.get?_cons_zero, Option.some.injEq] at h
      rw [List.set_cons_zero, ← h]
    | succ j =>
      simp only [List.get?_cons_succ] at h
      rw [List.set_cons_succ, ih j a h]

lemma get?_append_length {α : Type} (l : List α) (a : α) :
    (l ++ [a]).get? l.length = some a := by
  induction l with
  | nil => rfl
  | cons x xs ih =>
    simp only [List.cons_append, List.length_cons, List.get?_cons_succ]
    exact ih

lemma get?_lt {α : Type} (l : List α) (i : Nat) (a : α)
    (h : l.get? i = some a) : i < l.length := by
  by_contra hc
  rw [List.get?_eq_none.mpr (by omega)] at h
  exact Option.noConfusion h

lemma cacheGet_set (c : List (String × Nat)) (k : String) (v : Nat) :
    cacheGet (cacheSet c k v) k = some v := by
  unfold cacheSet cacheGet
  rw [List.find?_cons_of_pos _ (by simp)]

lemma cacheGet_remove (c : List (String × Nat)) (k : String) :
    cacheGet (cacheRemove c k) k = none := by
  induction c with
  | nil => rfl
  | cons e tl ih =>
    rw [cacheRemove, List.filter_cons]
    by_cases he : e.1 == k
    · rw [if_neg (by simp [he])]
      exact ih
    · rw [if_pos (by simp [he])]
      unfold cacheGet
      rw [List.find?_cons_of_neg _ (by simp [he])]
      exact ih

/-! ### Reserve outcome characterisations -/

lemma reserve_false_disposed (p : BaseWorkerPool) (h : p.reserve.2 = false) :
    p.disposed = true := by
  cases hd : p.disposed
  · rw [reserve_live p hd] at h
    exact absurd h (by simp)
  · rfl

lemma reserve_true_live (p : BaseWorkerPool) (h : p.reserve.2 = true) :
    p.disposed = false := by
  cases hd : p.disposed
  · rfl
  · rw [reserve_disposed p hd] at h
    exact absurd h (by simp)

/-! ### Manager helper lemmas -/

lemma setPool_self (st : ManagerState) (pid : Nat) (p : BaseWorkerPool)
    (h : st.pools.get? pid = some p) : setPool st pid p = st := by
  unfold setPool
  rw [set_get_self st.pools pid p h]

lemma newWorkerPool_ok (sz : Int) (t : Int) (h : 0 ≤ sz) :
    NewWorkerPool sz t = some (Except.ok (freshPool sz t)) := by
  unfold NewWorkerPool chanMake freshPool
  rw [if_neg (by omega)]
  rfl

lemma newWorkerPool_not_error (sz : Int) (t : Int) (e : String) :
    NewWorkerPool sz t ≠ some (Except.error e) := by
  unfold NewWorkerPool chanMake
  split <;> simp

lemma resolve_fail_inv (m : WorkerPoolManager) (key : String) (f : Factory)
    (st : ManagerState) (e : String) (st1 : ManagerState)
    (h : resolvePool m key f st = ResolveOutcome.fail e st1) :
    cacheGet st.cache key = none
    ∧ f m.workerPoolMaxSize st.now = some (Except.error e)
    ∧ st1 = st := by
  unfold resolvePool at h
  split at h
  · exact absurd h (by simp)
  · next hc =>
    split at h
    · exact absurd h (by simp)
    · next e' hf =>
      simp only [ResolveOutcome.fail.injEq] at h
      obtain ⟨rfl, rfl⟩ := h
      exact ⟨hc, hf, rfl⟩
    · exact absurd h (by simp)

lemma resolve_found_inv (m : WorkerPoolManager) (key : String) (f : Factory)
    (st : ManagerState) (pid : Nat) (st1 : ManagerState)
    (h : resolvePool m key f st = ResolveOutcome.found pid st1) :
    cacheGet st1.cache key = some pid ∧ st1.now = st.now
    ∧ st1.pendingDispose = st.pendingDispose := by
  unfold resolvePool at h
  split at h
  · next pid' hc =>
    simp only [ResolveOutcome.found.injEq] at h
    obtain ⟨rfl, rfl⟩ := h
    exact ⟨hc, rfl, rfl⟩
  · next hc =>
    split at h
    · exact absurd h (by simp)
    · exact absurd h (by simp)
    · next p hf =>
      simp only [ResolveOutcome.found.injEq] at h
      obtain ⟨rfl, rfl⟩ := h
      exact ⟨cacheGet_set st.cache key st.pools.length, rfl, rfl⟩

lemma resolve_hit (m : WorkerPoolManager) (key : String) (f : Factory)
    (st : ManagerState) (pid : Nat) (hc : cacheGet st.cache key = some pid) :
    resolvePool m key f st = ResolveOutcome.found pid st := by
  unfold resolvePool
  rw [hc]

lemma resolve_miss_ok (m : WorkerPoolManager) (key : String) (f : Factory)
    (st : ManagerState) (p : BaseWorkerPool)
    (hc : cacheGet st.cache key = none)
    (hf : f m.workerPoolMaxSize st.now = some (Except.ok p)) :
    resolvePool m key f st = ResolveOutcome.found st.pools.length
      { st with
          pools := st.pools ++ [p]
          cache := cacheSet st.cache key st.pools.length } := by
  unfold resolvePool
  rw [hc, hf]

lemma resolve_miss_err (m : WorkerPoolManager) (key : String) (f : Factory)
    (st : ManagerState) (e : String)
    (hc : cacheGet st.cache key = none)
    (hf : f m.workerPoolMaxSize st.now = some (Except.error e)) :
    resolvePool m key f st = ResolveOutcome.fail e st := by
  unfold resolvePool
  rw [hc, hf]

lemma finishGet_ret (m : WorkerPoolManager) (key : String) (n : Int)
    (pid : Nat) (p : BaseWorkerPool) (st1 : ManagerState) :
    (finishGet m key n pid p st1).1
      = { pool := some pid, doneUsing := some pid, err := none } := by
  simp only [finishGet]
  split <;> rfl

lemma finishGet_now (m : WorkerPoolManager) (key : String) (n : Int)
    (pid : Nat) (p : BaseWorkerPool) (st1 : ManagerState) :
    (finishGet m key n pid p st1).2.now = st1.now := by
  simp only [finishGet, setPool]
  split <;> rfl

lemma finishGet_pools (m : WorkerPoolManager) (key : String) (n : Int)
    (pid : Nat) (p : BaseWorkerPool) (st1 : ManagerState) :
    (finishGet m key n pid p st1).2.pools
      = st1.pools.set pid (p.spawnWorkers n) := by
  simp only [finishGet, setPool]
  split <;> rfl

lemma setPool_now (st : ManagerState) (pid : Nat) (p : BaseWorkerPool) :
    (setPool st pid p).now = st.now := rfl

lemma setPool_cache (st : ManagerState) (pid : Nat) (p : BaseWorkerPool) :
    (setPool st pid p).cache = st.cache := rfl

lemma setPool_pending (st : ManagerState) (pid : Nat) (p : BaseWorkerPool) :
    (setPool st pid p).pendingDispose = st.pendingDispose := rfl

lemma setPool_pools (st : ManagerState) (pid : Nat) (p : BaseWorkerPool) :
    (setPool st pid p).pools = st.pools.set pid p := rfl

lemma finishGet_noevict (m : WorkerPoolManager) (key : String) (n : Int)
    (pid : Nat) (p : BaseWorkerPool) (st1 : ManagerState)
    (hcond : ¬ m.maxPoolLifetime < (p.spawnWorkers n).age st1.now) :
    finishGet m key n pid p st1
      = ({ pool := some pid, doneUsing := some pid, err := none },
         setPool st1 pid (p.spawnWorkers n)) := by
  simp only [finishGet, setPool_now]
  rw [if_neg hcond]

lemma finishGet_evict (m : WorkerPoolManager) (key : String) (n : Int)
    (pid : Nat) (p : BaseWorkerPool) (st1 : ManagerState)
    (hcond : m.maxPoolLifetime < (p.spawnWorkers n).age st1.now) :
    finishGet m key n pid p st1
      = ({ pool := some pid, doneUsing := some pid, err := none },
         { setPool st1 pid (p.spawnWorkers n) with
             cache := cacheRemove st1.cache key
             pendingDispose := st1.pendingDispose ++ [pid] }) := by
  simp only [finishGet, setPool_now]
  rw [if_pos hcond]
  simp only [setPool_cache, setPool_pending]

/-- One unfolding step of `GetPoolWithFactory`. -/
lemma get_succ (m : WorkerPoolManager) (key : String) (n : Int) (f : Factory)
    (fuel : Nat) (st : ManagerState) :
    GetPoolWithFactory m key n f (fuel + 1) st =
      match resolvePool m key f st with
      | ResolveOutcome.panicked => none
      | ResolveOutcome.fail e st1 =>
        some ({ pool := none, doneUsing := none, err := some e }, st1)
      | ResolveOutcome.found pid st1 =>
        match st1.pools.get? pid with
        | none => none
        | some p =>
          if p.reserve.2 then
            some (finishGet m key n pid p.reserve.1 st1)
          else
            GetPoolWithFactory m key n f fuel (setPool st1 pid p.reserve.1) := rfl

lemma get_step_panic (m : WorkerPoolManager) (key : String) (n : Int)
    (f : Factory) (fuel : Nat) (st : ManagerState)
    (h : resolvePool m key f st = ResolveOutcome.panicked) :
    GetPoolWithFactory m key n f (fuel + 1) st = none := by
  rw [get_succ, h]

lemma get_step_fail (m : WorkerPoolManager) (key : String) (n : Int)
    (f : Factory) (fuel : Nat) (st : ManagerState) (e : String)
    (st1 : ManagerState)
    (h : resolvePool m key f st = ResolveOutcome.fail e st1) :
    GetPoolWithFactory m key n f (fuel + 1) st
      = some ({ pool := none, doneUsing := none, err := some e }, st1) := by
  rw [get_succ, h]

lemma get_step_nopool (m : WorkerPoolManager) (key : String) (n : Int)
    (f : Factory) (fuel : Nat) (st : ManagerState) (pid : Nat)
    (st1 : ManagerState)
    (h : resolvePool m key f st = ResolveOutcome.found pid st1)
    (hp : st1.pools.get? pid = none) :
    GetPoolWithFactory m key n f (fuel + 1) st = none := by
  rw [get_succ, h]
  simp only [hp]

lemma get_step_reserved (m : WorkerPoolManager) (key : String) (n : Int)
    (f : Factory) (fuel : Nat) (st : ManagerState) (pid : Nat)
    (st1 : ManagerState) (p : BaseWorkerPool)
    (h : resolvePool m key f st = ResolveOutcome.found pid st1)
    (hp : st1.pools.get? pid = some p)
    (hr : p.reserve.2 = true) :
    GetPoolWithFactory m key n f (fuel + 1) st
      = some (finishGet m key n pid p.reserve.1 st1) := by
  rw [get_succ, h]
  simp only [hp, hr, eq_self_iff_true, if_true]

lemma get_step_retry (m : WorkerPoolManager) (key : String) (n : Int)
    (f : Factory) (fuel : Nat) (st : ManagerState) (pid : Nat)
    (st1 : ManagerState) (p : BaseWorkerPool)
    (h : resolvePool m key f st = ResolveOutcome.found pid st1)
    (hp : st1.pools.get? pid = some p)
    (hr : p.reserve.2 = false) :
    GetPoolWithFactory m key n f (fuel + 1) st
      = GetPoolWithFactory m key n f fuel (setPool st1 pid p.reserve.1) := by
  rw [get_succ, h]
  simp only [hp, hr]
  simp

/-- With the key bound in the cache to an already-disposed pool, the
retry loop never returns (sequentially: it spins until fuel runs out). -/
lemma get_stuck (m : WorkerPoolManager) (key : String) (n : Int) (f : Factory) :
    ∀ (fuel : Nat) (st : ManagerState) (pid : Nat) (p : BaseWorkerPool),
      cacheGet st.cache key = some pid → st.pools.get? pid = some p →
      p.disposed = true → GetPoolWithFactory m key n f fuel st = none := by
  intro fuel
  induction fuel with
  | zero =>
    intro st pid p _ _ _
    rfl
  | succ k ih =>
    intro st pid p hc hp hd
    rw [get_succ, resolve_hit m key f st pid hc]
    simp only [hp, reserve_disposed p hd]
    rw [setPool_self st pid p hp]
    exact ih st pid p hc hp hd

/-- A normal return at any fuel is already the fuel-1 return: the retry
branch can only be entered with the state unchanged and then never
returns. -/
lemma get_one_of_some (m : WorkerPoolManager) (key : String) (n : Int)
    (f : Factory) (fuel : Nat) (st : ManagerState)
    (r : GetReturn × ManagerState)
    (h : GetPoolWithFactory m key n f fuel st = some r) :
    GetPoolWithFactory m key n f 1 st = some r := by
  cases fuel with
  | zero => exact absurd h (by simp [GetPoolWithFactory])
  | succ k =>
    cases hres : resolvePool m key f st with
    | panicked =>
      rw [get_step_panic m key n f k st hres] at h
      exact absurd h (by simp)
    | fail e st1 =>
      rw [get_step_fail m key n f k st e st1 hres] at h
      rw [get_step_fail m key n f 0 st e st1 hres]
      exact h
    | found pid st1 =>
      cases hp : st1.pools.get? pid with
      | none =>
        rw [get_step_nopool m key n f k st pid st1 hres hp] at h
        exact absurd h (by simp)
      | some p =>
        cases hr2 : p.reserve.2 with
        | true =>
          rw [get_step_reserved m key n f k st pid st1 p hres hp hr2] at h
          rw [get_step_reserved m key n f 0 st pid st1 p hres hp hr2]
          exact h
        | false =>
          rw [get_step_retry m key n f k st pid st1 p hres hp hr2] at h
          have hd := reserve_false_disposed p hr2
          have hone : p.reserve.1 = p := by rw [reserve_disposed p hd]
          rw [hone, setPool_self st1 pid p hp] at h
          have hcache1 := (resolve_found_inv m key f st pid st1 hres).1
          rw [get_stuck m key n f k st1 pid p hcache1 hp hd] at h
          exact absurd h (by simp)

/-- A non-nil error can only come out of the factory-failure path: the
key was absent, the factory reported exactly that error, the returned
pool and release signal are nil and the state is untouched. -/
lemma get_err_inv (m : WorkerPoolManager) (key : String) (n : Int)
    (f : Factory) (fuel : Nat) (st : ManagerState) (ret : GetReturn)
    (st' : ManagerState) (e : String)
    (h : GetPoolWithFactory m key n f fuel st = some (ret, st'))
    (he : ret.err = some e) :
    cacheGet st.cache key = none
    ∧ f m.workerPoolMaxSize st.now = some (Except.error e)
    ∧ ret.pool = none ∧ ret.doneUsing = none ∧ st' = st := by
  have h1 := get_one_of_some m key n f fuel st (ret, st') h
  cases hres : resolvePool m key f st with
  | panicked =>
    rw [get_step_panic m key n f 0 st hres] at h1
    exact absurd h1 (by simp)
  | fail e' stf =>
    rw [get_step_fail m key n f 0 st e' stf hres] at h1
    simp only [Option.some.injEq, Prod.mk.injEq] at h1
    obtain ⟨hret, hst⟩ := h1
    obtain ⟨hc, hf, rfl⟩ := resolve_fail_inv m key f st e' stf hres
    rw [← hret] at he
    simp only [Option.some.injEq] at he
    subst he
    exact ⟨hc, hf, by rw [← hret], by rw [← hret], hst.symm⟩
  | found pid stA =>
    cases hp : stA.pools.get? pid with
    | none =>
      rw [get_step_nopool m key n f 0 st pid stA hres hp] at h1
      exact absurd h1 (by simp)
    | some p =>
      cases hr2 : p.reserve.2 with
      | false =>
        rw [get_step_retry m key n f 0 st pid stA p hres hp hr2] at h1
        exact absurd h1 (by simp [GetPoolWithFactory])
      | true =>
        rw [get_step_reserved m key n f 0 st pid stA p hres hp hr2] at h1
        simp only [Option.some.injEq] at h1
        have hret : ret = { pool := some pid, doneUsing := some pid, err := none } := by
          have h2 := congrArg Prod.fst h1
          rw [finishGet_ret] at h2
          exact h2.symm
        rw [hret] at he
        exact absurd he (by simp)

/-- The pool a successful call hands back is not disposed and carries
the caller's shared-mode reservation. -/
lemma get_ok_inv (m : WorkerPoolManager) (key : String) (n : Int)
    (f : Factory) (fuel : Nat) (st : ManagerState) (ret : GetReturn)
    (st' : ManagerState) (pid : Nat) (p : BaseWorkerPool)
    (h : GetPoolWithFactory m key n f fuel st = some (ret, st'))
    (hpool : ret.pool = some pid)
    (hp : st'.pools.get? pid = some p) :
    p.disposed = false ∧ 1 ≤ p.readLocks := by
  have h1 := get_one_of_some m key n f fuel st (ret, st') h
  cases hres : resolvePool m key f st with
  | panicked =>
    rw [get_step_panic m key n f 0 st hres] at h1
    exact absurd h1 (by simp)
  | fail e' stf =>
    rw [get_step_fail m key n f 0 st e' stf hres] at h1
    simp only [Option.some.injEq, Prod.mk.injEq] at h1
    rw [← h1.1] at hpool
    exact absurd hpool (by simp)
  | found pid0 stA =>
    cases hp0 : stA.pools.get? pid0 with
    | none =>
      rw [get_step_nopool m key n f 0 st pid0 stA hres hp0] at h1
      exact absurd h1 (by simp)
    | some p0 =>
      cases hr2 : p0.reserve.2 with
      | false =>
        rw [get_step_retry m key n f 0 st pid0 stA p0 hres hp0 hr2] at h1
        exact absurd h1 (by simp [GetPoolWithFactory])
      | true =>
        rw [get_step_reserved m key n f 0 st pid0 stA p0 hres hp0 hr2] at h1
        simp only [Option.some.injEq] at h1
        have hret : ret = { pool := some pid0, doneUsing := some pid0, err := none } := by
          have h2 := congrArg Prod.fst h1
          rw [finishGet_ret] at h2
          exact h2.symm
        rw [hret] at hpool
        simp only [Option.some.injEq] at hpool
        obtain rfl := hpool
        have hst' : st' = (finishGet m key n pid0 p0.reserve.1 stA).2 :=
          (congrArg Prod.snd h1).symm
        have hlt0 : pid0 < stA.pools.length := get?_lt stA.pools pid0 p0 hp0
        have hget2 : st'.pools.get? pid0 = some (p0.reserve.1.spawnWorkers n) := by
          rw [hst', finishGet_pools]
          exact get?_set_self stA.pools pid0 _ hlt0
    -- identify p with the spawned, reserved pool
        have hpp : p = p0.reserve.1.spawnWorkers n := by
          have := hp.symm.trans hget2
          exact Option.some.injEq _ _ ▸ this
        have hd0 : p0.disposed = false := reserve_true_live p0 hr2
        constructor
        · rw [hpp, spawnWorkers_disposed, reserve_live p0 hd0]
          exact hd0
        · rw [hpp, spawnWorkers_readLocks, reserve_live p0 hd0]
          show 1 ≤ p0.readLocks + 1
          omega

/-- A cache hit on a live pool returns it (with no use of the factory
argument). -/
lemma get_hit_live (m : WorkerPoolManager) (key : String) (n : Int)
    (g : Factory) (st : ManagerState) (pid : Nat) (p : BaseWorkerPool)
    (hc : cacheGet st.cache key = some pid)
    (hp : st.pools.get? pid = some p)
    (hd : p.disposed = false) :
    GetPoolWithFactory m key n g 1 st
      = some ({ pool := some pid, doneUsing := some pid, err := none },
              (finishGet m key n pid p.reserve.1 st).2) := by
  have hres := resolve_hit m key g st pid hc
  have hr2 : p.reserve.2 = true := by rw [reserve_live p hd]
  rw [get_step_reserved m key n g 0 st pid st p hres hp hr2,
    ← finishGet_ret m key n pid p.reserve.1 st]

/-- A cache miss with the default factory creates, caches, reserves and
returns a fresh pool (the new heap slot). -/
lemma get_fresh (m : WorkerPoolManager) (key : String) (n : Int)
    (st : ManagerState)
    (hc : cacheGet st.cache key = none)
    (hm : 0 ≤ m.workerPoolMaxSize) :
    ∃ st2, GetPoolWithFactory m key n NewWorkerPool 1 st
      = some ({ pool := some st.pools.length,
                doneUsing := some st.pools.length, err := none }, st2) := by
  have hres := resolve_miss_ok m key NewWorkerPool st
    (freshPool m.workerPoolMaxSize st.now) hc (newWorkerPool_ok _ _ hm)
  have hp : ({ st with
      pools := st.pools ++ [freshPool m.workerPoolMaxSize st.now]
      cache := cacheSet st.cache key st.pools.length } : ManagerState).pools.get?
        st.pools.length = some (freshPool m.workerPoolMaxSize st.now) :=
    get?_append_length st.pools _
  have hr2 : (freshPool m.workerPoolMaxSize st.now).reserve.2 = true := by
    rw [reserve_live _ rfl]
  refine ⟨(finishGet m key n st.pools.length
      (freshPool m.workerPoolMaxSize st.now).reserve.1
      { st with
          pools := st.pools ++ [freshPool m.workerPoolMaxSize st.now]
          cache := cacheSet st.cache key st.pools.length }).2, ?_⟩
  rw [get_step_reserved m key n NewWorkerPool 0 st st.pools.length _ _ hres hp hr2,
    ← finishGet_ret m key n st.pools.length
      (freshPool m.workerPoolMaxSize st.now).reserve.1
      { st with
          pools := st.pools ++ [freshPool m.workerPoolMaxSize st.now]
          cache := cacheSet st.cache key st.pools.length }]

/-- C3: when the key is absent and the factory fails, `GetPoolWithFactory`
returns a nil pool, a nil release signal and exactly the factory's error,
leaving the state (cache included) untouched - and a factory failure on
an absent key is the only way it returns a non-nil error. -/
theorem getPoolWithFactory_factory_error (m : WorkerPoolManager) (key : String)
    (n : Int) (f : Factory) (fuel : Nat) (st : ManagerState) (e : String) :
    (cacheGet st.cache key = none →
      f m.workerPoolMaxSize st.now = some (Except.error e) →
      GetPoolWithFactory m key n f (fuel + 1) st
        = some ({ pool := none, doneUsing := none, err := some e }, st))
    ∧ (∀ ret st', GetPoolWithFactory m key n f fuel st = some (ret, st') →
        ret.err = some e →
        cacheGet st.cache key = none
        ∧ f m.workerPoolMaxSize st.now = some (Except.error e)
        ∧ ret.pool = none ∧ ret.doneUsing = none ∧ st' = st) := by
  constructor
  · intro hc hf
    exact get_step_fail m key n f fuel st e st (resolve_miss_err m key f st e hc hf)
  · intro ret st' h he
    exact get_err_inv m key n f fuel st ret st' e h he

theorem getPoolWithFactory_factory_error_witness :
    GetPoolWithFactory mgr "k" 0 errFactory 1 ⟨[], [], [], 0⟩
      = some ({ pool := none, doneUsing := none, err := some "X" },
              ⟨[], [], [], 0⟩) :=
  (getPoolWithFactory_factory_error mgr "k" 0 errFactory 0 ⟨[], [], [], 0⟩ "X").1
    rfl rfl

/-- C8: `GetPool` delegates to `GetPoolWithFactory` with the default
factory `NewWorkerPool` and discards the error; that error is always nil,
because `NewWorkerPool` never returns a non-nil error (every return it
makes is an `ok`). -/
theorem getPool_never_errors (m : WorkerPoolManager) (key : String) (n : Int)
    (fuel : Nat) (st : ManagerState) :
    GetPool m key n fuel st
      = (GetPoolWithFactory m key n NewWorkerPool fuel st).map
          (fun r => ((r.1.pool, r.1.doneUsing), r.2))
    ∧ (∀ ret st', GetPoolWithFactory m key n NewWorkerPool fuel st
          = some (ret, st') → ret.err = none)
    ∧ (∀ (sz t : Int) (r : Except String BaseWorkerPool),
        NewWorkerPool sz t = some r → ∃ p, r = Except.ok p) := by
  refine ⟨rfl, ?_, ?_⟩
  · intro ret st' h
    cases he : ret.err with
    | none => rfl
    | some e =>
      have herr := (get_err_inv m key n NewWorkerPool fuel st ret st' e h he).2.1
      exact absurd herr (newWorkerPool_not_error _ _ _)
  · intro sz t r h
    unfold NewWorkerPool at h
    cases hcm : chanMake sz with
    | none =>
      rw [hcm] at h
      exact absurd h (by simp)
    | some c =>
      rw [hcm] at h
      simp only [Option.map_some', Option.some.injEq] at h
      exact ⟨_, h.symm⟩

theorem getPool_never_errors_witness :
    ({ pool := some 0, doneUsing := some 0, err := none } : GetReturn).err = none
    ∧ ∃ p, (Except.ok livePool : Except String BaseWorkerPool) = Except.ok p :=
  ⟨(getPool_never_errors mgr "k" 0 1 ⟨[], [], [], 0⟩).2.1
      { pool := some 0, doneUsing := some 0, err := none }
      ⟨[{ livePool with readLocks := 1 }], [("k", 0)], [], 0⟩ rfl,
   (getPool_never_errors mgr "k" 0 1 ⟨[], [], [], 0⟩).2.2 2 0
      (Except.ok livePool) rfl⟩

/-- C9: a successful `GetPoolWithFactory` never hands out a disposed pool
(the returned pool is live and carries the caller's shared reservation),
and when `reserve` fails - the cached pool was disposed - the call
releases the manager lock and restarts the whole sequence from scratch on
the unchanged state. -/
theorem getPoolWithFactory_no_disposed_pool (m : WorkerPoolManager)
    (key : String) (n : Int) (f : Factory) :
    (∀ fuel st ret st' pid p,
        GetPoolWithFactory m key n f fuel st = some (ret, st') →
        ret.pool = some pid → st'.pools.get? pid = some p →
        p.disposed = false ∧ 1 ≤ p.readLocks)
    ∧ (∀ fuel st pid p,
        cacheGet st.cache key = some pid → st.pools.get? pid = some p →
        p.disposed = true →
        GetPoolWithFactory m key n f (fuel + 1) st
          = GetPoolWithFactory m key n f fuel st) := by
  constructor
  · intro fuel st ret st' pid p h hpool hp
    exact get_ok_inv m key n f fuel st ret st' pid p h hpool hp
  · intro fuel st pid p hc hp hd
    have hr2 : p.reserve.2 = false := by rw [reserve_disposed p hd]
    have hone : p.reserve.1 = p := by rw [reserve_disposed p hd]
    rw [get_step_retry m key n f fuel st pid st p
      (resolve_hit m key f st pid hc) hp hr2, hone, setPool_self st pid p hp]

theorem getPoolWithFactory_no_disposed_pool_witness :
    (spawnedPool.disposed = false ∧ 1 ≤ spawnedPool.readLocks)
    ∧ GetPoolWithFactory mgr "k" 1 NewWorkerPool 1 ⟨[deadPool], [("k", 0)], [], 0⟩
        = GetPoolWithFactory mgr "k" 1 NewWorkerPool 0 ⟨[deadPool], [("k", 0)], [], 0⟩ :=
  ⟨(getPoolWithFactory_no_disposed_pool mgr "k" 1 NewWorkerPool).1
      1 ⟨[livePool], [("k", 0)], [], 0⟩
      { pool := some 0, doneUsing := some 0, err := none }
      ⟨[spawnedPool], [("k", 0)], [], 0⟩ 0 spawnedPool rfl rfl rfl,
   (getPoolWithFactory_no_disposed_pool mgr "k" 1 NewWorkerPool).2
      0 ⟨[deadPool], [("k", 0)], [], 0⟩ 0 deadPool rfl rfl rfl⟩

/-- C2: when a call resolves a pool whose age strictly exceeds
`maxPoolLifetime`, that very call removes the key from the cache and
schedules the pool's `Dispose`, while still returning the aged pool to
the caller; a subsequent call for the same key builds a different pool
instance (a fresh heap slot). -/
theorem getPoolWithFactory_evicts_overage (m : WorkerPoolManager)
    (key : String) (n n2 : Int) (f : Factory) (fuel : Nat)
    (st : ManagerState) (ret : GetReturn) (st1 : ManagerState)
    (pid : Nat) (p : BaseWorkerPool)
    (hrun : GetPoolWithFactory m key n f fuel st = some (ret, st1))
    (hpool : ret.pool = some pid)
    (hp : st1.pools.get? pid = some p)
    (hage : m.maxPoolLifetime < p.age st1.now)
    (hm : 0 ≤ m.workerPoolMaxSize) :
    cacheGet st1.cache key = none
    ∧ pid ∈ st1.pendingDispose
    ∧ ∃ ret2 st2,
        GetPoolWithFactory m key n2 NewWorkerPool 1 st1 = some (ret2, st2)
        ∧ ret2.pool = some st1.pools.length
        ∧ st1.pools.length ≠ pid := by
  have h1 := get_one_of_some m key n f fuel st (ret, st1) hrun
  cases hres : resolvePool m key f st with
  | panicked =>
    rw [get_step_panic m key n f 0 st hres] at h1
    exact absurd h1 (by simp)
  | fail e stf =>
    rw [get_step_fail m key n f 0 st e stf hres] at h1
    simp only [Option.some.injEq, Prod.mk.injEq] at h1
    rw [← h1.1] at hpool
    exact absurd hpool (by simp)
  | found pid0 stA =>
    cases hp0 : stA.pools.get? pid0 with
    | none =>
      rw [get_step_nopool m key n f 0 st pid0 stA hres hp0] at h1
      exact absurd h1 (by simp)
    | some p0 =>
      cases hr2 : p0.reserve.2 with
      | false =>
        rw [get_step_retry m key n f 0 st pid0 stA p0 hres hp0 hr2] at h1
        exact absurd h1 (by simp [GetPoolWithFactory])
      | true =>
        rw [get_step_reserved m key n f 0 st pid0 stA p0 hres hp0 hr2] at h1
        simp only [Option.some.injEq] at h1
        have hret : ret = { pool := some pid0, doneUsing := some pid0, err := none } := by
          have h2 := congrArg Prod.fst h1
          rw [finishGet_ret] at h2
          exact h2.symm
        rw [hret] at hpool
        simp only [Option.some.injEq] at hpool
        obtain rfl := hpool
        have hst1 : st1 = (finishGet m key n pid0 p0.reserve.1 stA).2 :=
          (congrArg Prod.snd h1).symm
        have hlt0 : pid0 < stA.pools.length := get?_lt stA.pools pid0 p0 hp0
        have hget2 : st1.pools.get? pid0
            = some (p0.reserve.1.spawnWorkers n) := by
          rw [hst1, finishGet_pools]
          exact get?_set_self stA.pools pid0 _ hlt0
        have hpp : p = p0.reserve.1.spawnWorkers n := by
          have hx := hp.symm.trans hget2
          exact Option.some.injEq _ _ ▸ hx
        by_cases hcond :
            m.maxPoolLifetime < (p0.reserve.1.spawnWorkers n).age stA.now
        · have hfin := finishGet_evict m key n pid0 p0.reserve.1 stA hcond
          rw [hfin] at hst1
          have hc1 : cacheGet st1.cache key = none := by
            rw [hst1]
            exact cacheGet_remove stA.cache key
          refine ⟨hc1, ?_, ?_⟩
          · rw [hst1]
            simp
          · obtain ⟨st2, hsecond⟩ := get_fresh m key n2 st1 hc1 hm
            refine ⟨_, st2, hsecond, rfl, ?_⟩
            have hlen : st1.pools.length = stA.pools.length := by
              rw [hst1]
              simp [setPool]
            omega
        · have hfin := finishGet_noevict m key n pid0 p0.reserve.1 stA hcond
          rw [hfin] at hst1
          have hnow : st1.now = stA.now := by
            rw [hst1]
            rfl
          rw [hpp, hnow] at hage
          exact absurd hage hcond

theorem getPoolWithFactory_evicts_overage_witness :
    cacheGet ([] : List (String × Nat)) "k" = none
    ∧ (0 : Nat) ∈ ([0] : List Nat)
    ∧ ∃ ret2 st2,
        GetPoolWithFactory mgr "k" 0 NewWorkerPool 1 ⟨[spawnedOldPool], [], [0], 0⟩
          = some (ret2, st2)
        ∧ ret2.pool = some 1 ∧ (1 : Nat) ≠ 0 :=
  getPoolWithFactory_evicts_overage mgr "k" 1 0 NewWorkerPool 1
    ⟨[oldPool], [("k", 0)], [], 0⟩
    { pool := some 0, doneUsing := some 0, err := none }
    ⟨[spawnedOldPool], [], [0], 0⟩ 0 spawnedOldPool
    rfl rfl rfl (by decide) (by decide)

/-- C6: starting from a state where the key is absent, the first
`GetPool(key, 0)` builds a pool, stores it in the cache under the key
and returns it; a second `GetPool(key, 0)` on the resulting state finds
it by cache lookup - with any factory argument whatsoever, so no factory
is invoked - and returns the identical pool instance (same heap
index). -/
theorem getPool_twice_same_instance (m : WorkerPoolManager) (key : String)
    (st : ManagerState)
    (hkey : cacheGet st.cache key = none)
    (hm : 0 ≤ m.workerPoolMaxSize)
    (hlife : 0 ≤ m.maxPoolLifetime) :
    ∃ st1 : ManagerState,
      GetPool m key 0 1 st
        = some ((some st.pools.length, some st.pools.length), st1)
      ∧ cacheGet st1.cache key = some st.pools.length
      ∧ (∀ g : Factory, ∃ st2,
          GetPoolWithFactory m key 0 g 1 st1
            = some ({ pool := some st.pools.length,
                      doneUsing := some st.pools.length, err := none }, st2))
      ∧ ∃ st2, GetPool m key 0 1 st1
          = some ((some st.pools.length, some st.pools.length), st2) := by
  have hres := resolve_miss_ok m key NewWorkerPool st
    (freshPool m.workerPoolMaxSize st.now) hkey (newWorkerPool_ok _ _ hm)
  have hpA : ({ st with
      pools := st.pools ++ [freshPool m.workerPoolMaxSize st.now]
      cache := cacheSet st.cache key st.pools.length } : ManagerState).pools.get?
        st.pools.length = some (freshPool m.workerPoolMaxSize st.now) :=
    get?_append_length st.pools _
  have hr2 : (freshPool m.workerPoolMaxSize st.now).reserve.2 = true := by
    rw [reserve_live _ rfl]
  have hstep := get_step_reserved m key 0 NewWorkerPool 0 st st.pools.length _ _
    hres hpA hr2
  have hnoev : ¬ m.maxPoolLifetime <
      ((freshPool m.workerPoolMaxSize st.now).reserve.1.spawnWorkers 0).age
        ({ st with
            pools := st.pools ++ [freshPool m.workerPoolMaxSize st.now]
            cache := cacheSet st.cache key st.pools.length } :
          ManagerState).now := by
    rw [spawnWorkers_zero, reserve_live _ rfl]
    simp only [BaseWorkerPool.age, freshPool]
    omega
  rw [finishGet_noevict m key 0 st.pools.length
    (freshPool m.workerPoolMaxSize st.now).reserve.1 _ hnoev] at hstep
  -- the state after the first call
  have hcache1 : (setPool
      { st with
          pools := st.pools ++ [freshPool m.workerPoolMaxSize st.now]
          cache := cacheSet st.cache key st.pools.length }
      st.pools.length
      ((freshPool m.workerPoolMaxSize st.now).reserve.1.spawnWorkers 0)).cache
        = cacheSet st.cache key st.pools.length := rfl
  have hget1 : (setPool
      { st with
          pools := st.pools ++ [freshPool m.workerPoolMaxSize st.now]
          cache := cacheSet st.cache key st.pools.length }
      st.pools.length
      ((freshPool m.workerPoolMaxSize st.now).reserve.1.spawnWorkers 0)).pools.get?
        st.pools.length
      = some ((freshPool m.workerPoolMaxSize st.now).reserve.1.spawnWorkers 0) := by
    rw [setPool_pools]
    refine get?_set_self _ st.pools.length _ ?_
    simp
  have hdisp : ((freshPool m.workerPoolMaxSize st.now).reserve.1.spawnWorkers
      0).disposed = false := by
    rw [spawnWorkers_disposed, reserve_live _ rfl]
    rfl
  have hcget : cacheGet (cacheSet st.cache key st.pools.length) key
      = some st.pools.length := cacheGet_set st.cache key st.pools.length
  refine ⟨setPool
      { st with
          pools := st.pools ++ [freshPool m.workerPoolMaxSize st.now]
          cache := cacheSet st.cache key st.pools.length }
      st.pools.length
      ((freshPool m.workerPoolMaxSize st.now).reserve.1.spawnWorkers 0),
    ?_, ?_, ?_, ?_⟩
  · unfold GetPool
    rw [hstep]
    rfl
  · exact hcget
  · intro g
    exact ⟨_, get_hit_live m key 0 g _ st.pools.length _ hcget hget1 hdisp⟩
  · have hh := get_hit_live m key 0 NewWorkerPool _ st.pools.length _
      hcget hget1 hdisp
    exact ⟨_, by unfold GetPool; rw [hh]; rfl⟩

theorem getPool_twice_same_instance_witness :
    ∃ st1 : ManagerState,
      GetPool mgr "k" 0 1 ⟨[], [], [], 0⟩ = some ((some 0, some 0), st1)
      ∧ cacheGet st1.cache "k" = some 0
      ∧ (∀ g : Factory, ∃ st2,
          GetPoolWithFactory mgr "k" 0 g 1 st1
            = some ({ pool := some 0, doneUsing := some 0, err := none }, st2))
      ∧ ∃ st2, GetPool mgr "k" 0 1 st1 = some ((some 0, some 0), st2) :=
  getPool_twice_same_instance mgr "k" ⟨[], [], [], 0⟩ rfl (by decide) (by decide)

end WorkerPools
